import Mathlib

/-!
Verification of the best buy/sell time finder of the ValueVault repository
(`src/C/bot.c`, function `findBestBuySellTimes`).

The C function scans a price array once, tracking the running minimum and
the best profit seen so far, and reports a buy index and a sell index
through out-parameters.  We embed it shallowly: prices become a `List ℚ`
(the C code uses `float`; the contract is over real numbers, so exact
rationals model the intended arithmetic), the loop state becomes a
structure, and the out-of-bounds read `prices[0]` that the C code performs
on an empty array is modelled by returning `none`.
-/

namespace ValueVault

/-- The scalar state of `findBestBuySellTimes`: the local variables
`minPrice`, `minTime`, `maxProfit` and the two out-parameters
`*buyTime`, `*sellTime`. -/
structure FindState where
  minPrice : ℚ
  minTime : ℕ
  maxProfit : ℚ
  buyTime : ℕ
  sellTime : ℕ
  deriving Repr, DecidableEq

/-- One iteration of the `for (int i = 1; i < n; i++)` loop body of
`findBestBuySellTimes`, at index `i` with current element `p = prices[i]`:

    if (prices[i] < minPrice) { minPrice = prices[i]; minTime = i; }
    float profit = prices[i] - minPrice;
    if (profit > maxProfit) { maxProfit = profit; *buyTime = minTime; *sellTime = i; }
-/
def loopStep (p : ℚ) (i : ℕ) (s : FindState) : FindState :=
  let s1 := if p < s.minPrice then { s with minPrice := p, minTime := i } else s
  let profit := p - s1.minPrice
  if profit > s1.maxProfit then
    { s1 with maxProfit := profit, buyTime := s1.minTime, sellTime := i }
  else s1

/-- Runs the loop body over the remaining elements `tail = prices[i..n-1]`,
carrying the current index `i`. -/
def loopRun : List ℚ → ℕ → FindState → FindState
  | [], _, s => s
  | p :: rest, i, s => loopRun rest (i + 1) (loopStep p i s)

/-- Shallow embedding of `findBestBuySellTimes(float prices[], int n, ...)`
with `n = prices.length`.  The C code starts with `float minPrice = prices[0]`
before any length check; on an empty array that read is out of bounds, which
we model as `none`.  On a non-empty array it initialises
`minPrice = prices[0]`, `minTime = 0`, `maxProfit = 0`, `*buyTime = 0`,
`*sellTime = 0` and runs the loop from `i = 1`. -/
def findBestBuySellTimes : List ℚ → Option FindState
  | [] => none
  | p :: rest =>
    some (loopRun rest 1
      { minPrice := p, minTime := 0, maxProfit := 0, buyTime := 0, sellTime := 0 })

/-- The observable result of the finder: `(buyTime, sellTime, maxProfit)`.
The C function reports the indices through out-parameters; `maxProfit` is
the profit value that the `findBestTrade` contract of the spec returns. -/
def findResult (ps : List ℚ) : Option (ℕ × ℕ × ℚ) :=
  (findBestBuySellTimes ps).map (fun r => (r.buyTime, r.sellTime, r.maxProfit))

example : findResult [7, 1, 5, 3, 6, 4] = some (1, 4, 5) := by
  norm_num [findResult, findBestBuySellTimes, loopRun, loopStep]

example : findResult [7, 6, 4, 3, 1] = some (0, 0, 0) := by
  norm_num [findResult, findBestBuySellTimes, loopRun, loopStep]

example : findResult [] = none := rfl

/-- The loop invariant of `findBestBuySellTimes`, holding before the
iteration at index `i` (indices `1, …, i-1` processed).  `ps.getD j 0`
reads `prices[j]`; every index mentioned is kept below `i ≤ n`. -/
structure Inv (ps : List ℚ) (i : ℕ) (s : FindState) : Prop where
  minTime_lt : s.minTime < i
  minPrice_eq : s.minPrice = ps.getD s.minTime 0
  minPrice_le : ∀ j, j < i → s.minPrice ≤ ps.getD j 0
  minTime_least : ∀ j, j < s.minTime → s.minPrice < ps.getD j 0
  maxProfit_nonneg : 0 ≤ s.maxProfit
  buy_le_sell : s.buyTime ≤ s.sellTime
  sell_lt : s.sellTime < i
  profit_eq : s.maxProfit = ps.getD s.sellTime 0 - ps.getD s.buyTime 0
  profit_max : ∀ b j, b ≤ j → j < i → ps.getD j 0 - ps.getD b 0 ≤ s.maxProfit
  zero_buy_sell : s.maxProfit = 0 → s.buyTime = 0 ∧ s.sellTime = 0
  pos_buy_lt_sell : 0 < s.maxProfit → s.buyTime < s.sellTime
  buy_min : 0 < s.maxProfit → ∀ j, j ≤ s.sellTime → ps.getD s.buyTime 0 ≤ ps.getD j 0
  buy_least : 0 < s.maxProfit → ∀ j, j < s.buyTime → ps.getD s.buyTime 0 < ps.getD j 0

theorem inv_loopStep (ps : List ℚ) (i : ℕ) (s : FindState) (hinv : Inv ps i s) :
    Inv ps (i + 1) (loopStep (ps.getD i 0) i s) := by
  obtain ⟨h_mlt, h_meq, h_mle, h_mleast, h_nn, h_bs, h_slt, h_peq, h_pmax, h_zero, h_pos,
    h_bmin, h_bleast⟩ := hinv
  set p := ps.getD i 0 with hp
  by_cases h1 : p < s.minPrice
  · -- the running minimum strictly decreases: `minPrice`/`minTime` updated,
    -- the candidate profit is `p - p = 0`, so the second branch cannot fire
    have hstep : loopStep p i s = { s with minPrice := p, minTime := i } := by
      unfold loopStep
      rw [if_pos h1]
      simp only
      rw [if_neg (by simp only [sub_self, gt_iff_lt, not_lt]; exact h_nn)]
    rw [hstep]
    refine ⟨?_, ?_, ?_, ?_, ?_, ?_, ?_, ?_, ?_, ?_, ?_, ?_, ?_⟩
    · show i < i + 1
      exact Nat.lt_succ_self i
    · show p = ps.getD i 0
      exact hp
    · show ∀ j, j < i + 1 → p ≤ ps.getD j 0
      intro j hj
      rcases Nat.lt_succ_iff_lt_or_eq.mp hj with hj' | hj'
      · exact le_of_lt (lt_of_lt_of_le h1 (h_mle j hj'))
      · subst hj'; exact le_of_eq hp
    · show ∀ j, j < i → p < ps.getD j 0
      intro j hj
      exact lt_of_lt_of_le h1 (h_mle j hj)
    · exact h_nn
    · exact h_bs
    · show s.sellTime < i + 1
      exact Nat.lt_succ_of_lt h_slt
    · exact h_peq
    · show ∀ b j, b ≤ j → j < i + 1 → ps.getD j 0 - ps.getD b 0 ≤ s.maxProfit
      intro b j hb hj
      rcases Nat.lt_succ_iff_lt_or_eq.mp hj with hj' | hj'
      · exact h_pmax b j hb hj'
      · subst hj'
        rcases Nat.lt_succ_iff_lt_or_eq.mp (Nat.lt_succ_of_le hb) with hb' | hb'
        · have := h_mle b hb'
          rw [← hp]; linarith
        · subst hb'; rw [← hp]; linarith
    · exact h_zero
    · exact h_pos
    · exact h_bmin
    · exact h_bleast
  · have h1' : s.minPrice ≤ p := not_lt.mp h1
    by_cases h2 : p - s.minPrice > s.maxProfit
    · -- new best profit found: `maxProfit`, `*buyTime`, `*sellTime` updated
      have hstep : loopStep p i s =
          { s with maxProfit := p - s.minPrice, buyTime := s.minTime, sellTime := i } := by
        unfold loopStep
        rw [if_neg h1]
        simp only
        rw [if_pos h2]
      rw [hstep]
      refine ⟨?_, ?_, ?_, ?_, ?_, ?_, ?_, ?_, ?_, ?_, ?_, ?_, ?_⟩
      · show s.minTime < i + 1
        exact Nat.lt_succ_of_lt h_mlt
      · exact h_meq
      · show ∀ j, j < i + 1 → s.minPrice ≤ ps.getD j 0
        intro j hj
        rcases Nat.lt_succ_iff_lt_or_eq.mp hj with hj' | hj'
        · exact h_mle j hj'
        · subst hj'; rw [← hp]; exact h1'
      · exact h_mleast
      · show 0 ≤ p - s.minPrice
        linarith
      · show s.minTime ≤ i
        exact le_of_lt h_mlt
      · show i < i + 1
        exact Nat.lt_succ_self i
      · show p - s.minPrice = ps.getD i 0 - ps.getD s.minTime 0
        rw [← hp, ← h_meq]
      · show ∀ b j, b ≤ j → j < i + 1 → ps.getD j 0 - ps.getD b 0 ≤ p - s.minPrice
        intro b j hb hj
        rcases Nat.lt_succ_iff_lt_or_eq.mp hj with hj' | hj'
        · exact le_of_lt (lt_of_le_of_lt (h_pmax b j hb hj') h2)
        · subst hj'
          rcases Nat.lt_succ_iff_lt_or_eq.mp (Nat.lt_succ_of_le hb) with hb' | hb'
          · have := h_mle b hb'
            rw [← hp]; linarith
          · subst hb'; rw [← hp]; linarith
      · show p - s.minPrice = 0 → s.minTime = 0 ∧ i = 0
        intro habs; exfalso; linarith
      · show 0 < p - s.minPrice → s.minTime < i
        intro _; exact h_mlt
      · show 0 < p - s.minPrice → ∀ j, j ≤ i → ps.getD s.minTime 0 ≤ ps.getD j 0
        intro _ j hj
        rw [← h_meq]
        rcases Nat.lt_succ_iff_lt_or_eq.mp (Nat.lt_succ_of_le hj) with hj' | hj'
        · exact h_mle j hj'
        · subst hj'; rw [← hp]; exact h1'
      · show 0 < p - s.minPrice → ∀ j, j < s.minTime → ps.getD s.minTime 0 < ps.getD j 0
        intro _ j hj
        rw [← h_meq]
        exact h_mleast j hj
    · -- no update in this iteration
      have hstep : loopStep p i s = s := by
        unfold loopStep
        rw [if_neg h1]
        simp only
        rw [if_neg h2]
      rw [hstep]
      have h2' : p - s.minPrice ≤ s.maxProfit := not_lt.mp h2
      refine ⟨?_, ?_, ?_, ?_, ?_, ?_, ?_, ?_, ?_, ?_, ?_, ?_, ?_⟩
      · show s.minTime < i + 1
        exact Nat.lt_succ_of_lt h_mlt
      · exact h_meq
      · show ∀ j, j < i + 1 → s.minPrice ≤ ps.getD j 0
        intro j hj
        rcases Nat.lt_succ_iff_lt_or_eq.mp hj with hj' | hj'
        · exact h_mle j hj'
        · subst hj'; rw [← hp]; exact h1'
      · exact h_mleast
      · exact h_nn
      · exact h_bs
      · show s.sellTime < i + 1
        exact Nat.lt_succ_of_lt h_slt
      · exact h_peq
      · show ∀ b j, b ≤ j → j < i + 1 → ps.getD j 0 - ps.getD b 0 ≤ s.maxProfit
        intro b j hb hj
        rcases Nat.lt_succ_iff_lt_or_eq.mp hj with hj' | hj'
        · exact h_pmax b j hb hj'
        · subst hj'
          rcases Nat.lt_succ_iff_lt_or_eq.mp (Nat.lt_succ_of_le hb) with hb' | hb'
          · have := h_mle b hb'
            rw [← hp]; linarith
          · subst hb'; rw [← hp]; linarith
      · exact h_zero
      · exact h_pos
      · exact h_bmin
      · exact h_bleast

theorem inv_loopRun (ps : List ℚ) (tail : List ℚ) :
    ∀ (i : ℕ) (s : FindState), ps.drop i = tail → Inv ps i s →
      Inv ps (i + tail.length) (loopRun tail i s) := by
  induction tail with
  | nil =>
    intro i s _ hinv
    simpa [loopRun] using hinv
  | cons q rest ih =>
    intro i s hdrop hinv
    have hi : i < ps.length := by
      by_contra hle
      push_neg at hle
      rw [List.drop_eq_nil_of_le hle] at hdrop
      exact absurd hdrop (by simp)
    have hq : ps.getD i 0 = q := by
      have h0 : (ps.drop i)[0]? = some q := by rw [hdrop]; simp
      rw [List.getElem?_drop] at h0
      have h1 : ps[i]? = some q := by simpa using h0
      rw [List.getD_eq_getElem?_getD, h1]
      rfl
    have hdrop' : ps.drop (i + 1) = rest := by
      have h2 : (ps.drop i).drop 1 = ps.drop (i + 1) := List.drop_drop 1 i ps
      rw [hdrop] at h2
      simpa using h2.symm
    have hinv' : Inv ps (i + 1) (loopStep q i s) := by
      rw [← hq]
      exact inv_loopStep ps i s hinv
    have hrun : loopRun (q :: rest) i s = loopRun rest (i + 1) (loopStep q i s) := rfl
    have hlen : i + (q :: rest).length = (i + 1) + rest.length := by
      simp [List.length_cons]; omega
    rw [hrun, hlen]
    exact ih (i + 1) (loopStep q i s) hdrop' hinv'

/-- The invariant holds for the final state of `findBestBuySellTimes` at
`i = n = ps.length`. -/
theorem inv_find (ps : List ℚ) (r : FindState) (h : findBestBuySellTimes ps = some r) :
    Inv ps ps.length r := by
  match ps with
  | [] => exact absurd h (by simp [findBestBuySellTimes])
  | p :: rest =>
    have hr : r = loopRun rest 1
        { minPrice := p, minTime := 0, maxProfit := 0, buyTime := 0, sellTime := 0 } := by
      have := h
      rw [findBestBuySellTimes] at this
      exact (Option.some_injective _ this).symm
    have hbase : Inv (p :: rest) 1
        { minPrice := p, minTime := 0, maxProfit := 0, buyTime := 0, sellTime := 0 } := by
      refine ⟨?_, ?_, ?_, ?_, ?_, ?_, ?_, ?_, ?_, ?_, ?_, ?_, ?_⟩
      · exact Nat.zero_lt_one
      · rfl
      · intro j hj
        have hj0 : j = 0 := by omega
        subst hj0
        exact le_refl _
      · intro j hj
        exact absurd hj (Nat.not_lt_zero j)
      · exact le_refl 0
      · exact le_refl 0
      · exact Nat.zero_lt_one
      · show (0 : ℚ) = p - p
        rw [sub_self]
      · intro b j hb hj
        have hj0 : j = 0 := by omega
        have hb0 : b = 0 := by omega
        subst hj0; subst hb0
        show (p : ℚ) - p ≤ 0
        rw [sub_self]
      · intro _
        exact ⟨rfl, rfl⟩
      · intro habs
        exact absurd habs (lt_irrefl 0)
      · intro habs
        exact absurd habs (lt_irrefl 0)
      · intro habs
        exact absurd habs (lt_irrefl 0)
    have hlen : (p :: rest).length = 1 + rest.length := by
      simp [List.length_cons]; omega
    rw [hr, hlen]
    exact inv_loopRun (p :: rest) rest 1 _ rfl hbase

/-- On every non-empty list, `findBestBuySellTimes` succeeds. -/
theorem find_isSome (ps : List ℚ) (hne : ps ≠ []) :
    ∃ r, findBestBuySellTimes ps = some r := by
  match ps with
  | [] => exact absurd rfl hne
  | p :: rest => exact ⟨_, rfl⟩

/-- C1: for every non-empty price sequence, the profit computed by
`findBestBuySellTimes` is the true global maximum: no pair of indices
`(b, j)` with `b ≤ j < n` has `prices[j] - prices[b]` exceeding it. -/
theorem C1_profit_global_max (ps : List ℚ) (r : FindState) (b j : ℕ)
    (h : findBestBuySellTimes ps = some r) (hbj : b ≤ j) (hj : j < ps.length) :
    ps.getD j 0 - ps.getD b 0 ≤ r.maxProfit :=
  (inv_find ps r h).profit_max b j hbj hj

/-- Witness for C1 at `prices = [3, 1, 4]`, pair `(b, j) = (0, 2)`. -/
theorem C1_profit_global_max_witness :
    findBestBuySellTimes [3, 1, 4] =
      some { minPrice := 1, minTime := 1, maxProfit := 3, buyTime := 1, sellTime := 2 } ∧
    (0 : ℕ) ≤ 2 ∧ 2 < ([3, 1, 4] : List ℚ).length ∧
    ([3, 1, 4] : List ℚ).getD 2 0 - ([3, 1, 4] : List ℚ).getD 0 0 ≤
      ({ minPrice := 1, minTime := 1, maxProfit := 3, buyTime := 1, sellTime := 2 } :
        FindState).maxProfit := by
  have h : findBestBuySellTimes [3, 1, 4] =
      some { minPrice := 1, minTime := 1, maxProfit := 3, buyTime := 1, sellTime := 2 } := by
    norm_num [findBestBuySellTimes, loopRun, loopStep]
  exact ⟨h, by norm_num, by norm_num,
    C1_profit_global_max [3, 1, 4] _ 0 2 h (by norm_num) (by norm_num)⟩

/-- C2: for every non-empty price sequence, the computed profit equals
`prices[sellIndex] - prices[buyIndex]` for the returned indices. -/
theorem C2_profit_eq_diff (ps : List ℚ) (r : FindState)
    (h : findBestBuySellTimes ps = some r) :
    r.maxProfit = ps.getD r.sellTime 0 - ps.getD r.buyTime 0 :=
  (inv_find ps r h).profit_eq

/-- Witness for C2 at `prices = [2, 5]`. -/
theorem C2_profit_eq_diff_witness :
    findBestBuySellTimes [2, 5] =
      some { minPrice := 2, minTime := 0, maxProfit := 3, buyTime := 0, sellTime := 1 } ∧
    ({ minPrice := 2, minTime := 0, maxProfit := 3, buyTime := 0, sellTime := 1 } :
        FindState).maxProfit =
      ([2, 5] : List ℚ).getD 1 0 - ([2, 5] : List ℚ).getD 0 0 := by
  have h : findBestBuySellTimes [2, 5] =
      some { minPrice := 2, minTime := 0, maxProfit := 3, buyTime := 0, sellTime := 1 } := by
    norm_num [findBestBuySellTimes, loopRun, loopStep]
  exact ⟨h, C2_profit_eq_diff [2, 5] _ h⟩

/-- C3: for every non-empty price sequence of length `n`, the returned
indices satisfy `0 ≤ buyIndex ≤ sellIndex ≤ n - 1`, and the profit is
non-negative. -/
theorem C3_index_bounds (ps : List ℚ) (r : FindState)
    (h : findBestBuySellTimes ps = some r) :
    0 ≤ r.buyTime ∧ r.buyTime ≤ r.sellTime ∧ r.sellTime ≤ ps.length - 1 ∧
      0 ≤ r.maxProfit := by
  have hinv := inv_find ps r h
  have hs := hinv.sell_lt
  exact ⟨Nat.zero_le _, hinv.buy_le_sell, by omega, hinv.maxProfit_nonneg⟩

/-- Witness for C3 at `prices = [4, 2, 7]`. -/
theorem C3_index_bounds_witness :
    findBestBuySellTimes [4, 2, 7] =
      some { minPrice := 2, minTime := 1, maxProfit := 5, buyTime := 1, sellTime := 2 } ∧
    (0 ≤ ({ minPrice := 2, minTime := 1, maxProfit := 5, buyTime := 1, sellTime := 2 } :
        FindState).buyTime ∧
      ({ minPrice := 2, minTime := 1, maxProfit := 5, buyTime := 1, sellTime := 2 } :
        FindState).buyTime ≤
      ({ minPrice := 2, minTime := 1, maxProfit := 5, buyTime := 1, sellTime := 2 } :
        FindState).sellTime ∧
      ({ minPrice := 2, minTime := 1, maxProfit := 5, buyTime := 1, sellTime := 2 } :
        FindState).sellTime ≤ ([4, 2, 7] : List ℚ).length - 1 ∧
      0 ≤ ({ minPrice := 2, minTime := 1, maxProfit := 5, buyTime := 1, sellTime := 2 } :
        FindState).maxProfit) := by
  have h : findBestBuySellTimes [4, 2, 7] =
      some { minPrice := 2, minTime := 1, maxProfit := 5, buyTime := 1, sellTime := 2 } := by
    norm_num [findBestBuySellTimes, loopRun, loopStep]
  exact ⟨h, C3_index_bounds [4, 2, 7] _ h⟩

/-- C4: the spec requires `EmptyInputError` on a length-0 sequence, but the
C code has no length guard at all: it reads `prices[0]` before the loop,
which on an empty array is an out-of-bounds access (modelled as `none`),
and it raises no error of any kind. -/
theorem C4_empty_oob : findBestBuySellTimes [] = none := rfl

/-- C5: on every non-empty sequence in which no later price exceeds any
earlier price, the finder succeeds and returns `buyIndex = sellIndex = 0`
and `profit = 0`. -/
theorem C5_nonincreasing (ps : List ℚ) (hne : ps ≠ [])
    (hmono : ∀ j, j < ps.length → ∀ b, b ≤ j → ps.getD j 0 ≤ ps.getD b 0) :
    ∃ r, findBestBuySellTimes ps = some r ∧
      r.buyTime = 0 ∧ r.sellTime = 0 ∧ r.maxProfit = 0 := by
  obtain ⟨r, hr⟩ := find_isSome ps hne
  have hinv := inv_find ps r hr
  have hle : r.maxProfit ≤ 0 := by
    rw [hinv.profit_eq]
    have := hmono r.sellTime hinv.sell_lt r.buyTime hinv.buy_le_sell
    linarith
  have h0 : r.maxProfit = 0 := le_antisymm hle hinv.maxProfit_nonneg
  obtain ⟨hb, hs⟩ := hinv.zero_buy_sell h0
  exact ⟨r, hr, hb, hs, h0⟩

/-- Witness for C5 at the strictly descending series `[7, 6, 4, 3, 1]`. -/
theorem C5_nonincreasing_witness :
    ([7, 6, 4, 3, 1] : List ℚ) ≠ [] ∧
    (∀ j, j < ([7, 6, 4, 3, 1] : List ℚ).length → ∀ b, b ≤ j →
      ([7, 6, 4, 3, 1] : List ℚ).getD j 0 ≤ ([7, 6, 4, 3, 1] : List ℚ).getD b 0) ∧
    (∃ r, findBestBuySellTimes [7, 6, 4, 3, 1] = some r ∧
      r.buyTime = 0 ∧ r.sellTime = 0 ∧ r.maxProfit = 0) := by
  refine ⟨by simp, ?_, ?_⟩
  · decide
  · exact C5_nonincreasing [7, 6, 4, 3, 1] (by simp) (by decide)

/-- C6: on the input `[7, 1, 5, 3, 6, 4]` the finder returns
`buyIndex = 1`, `sellIndex = 4`, `profit = 5`. -/
theorem C6_example_up_down : findResult [7, 1, 5, 3, 6, 4] = some (1, 4, 5) := by
  norm_num [findResult, findBestBuySellTimes, loopRun, loopStep]

/-- C7: on the input `[1, 2, 1, 2, 1, 2]` the finder returns
`buyIndex = 0`, `sellIndex = 1`, `profit = 1`: the strict comparisons keep
the earliest minimum and the earliest maximizing sell point on ties. -/
theorem C7_tie_break : findResult [1, 2, 1, 2, 1, 2] = some (0, 1, 1) := by
  norm_num [findResult, findBestBuySellTimes, loopRun, loopStep]

/-- C9: the finder reports a strictly positive profit exactly when it
returns `buyIndex < sellIndex`, and `buyIndex = sellIndex` exactly when no
pair `b < j` with `prices[b] < prices[j]` exists, so the test
`buyTime < sellTime` in `main` detects the existence of a profitable
trade. -/
theorem C9_profitable_iff (ps : List ℚ) (r : FindState)
    (h : findBestBuySellTimes ps = some r) :
    (0 < r.maxProfit ↔ r.buyTime < r.sellTime) ∧
    (r.buyTime = r.sellTime ↔
      ∀ j, j < ps.length → ∀ b, b < j → ps.getD j 0 ≤ ps.getD b 0) := by
  have hinv := inv_find ps r h
  constructor
  · constructor
    · exact hinv.pos_buy_lt_sell
    · intro hlt
      rcases lt_or_eq_of_le hinv.maxProfit_nonneg with hpos | hzero
      · exact hpos
      · obtain ⟨hb, hs⟩ := hinv.zero_buy_sell hzero.symm
        rw [hb, hs] at hlt
        exact absurd hlt (lt_irrefl 0)
  · constructor
    · intro heq j hj b hb
      have h0 : r.maxProfit = 0 := by
        rw [hinv.profit_eq, heq, sub_self]
      have := hinv.profit_max b j (le_of_lt hb) hj
      rw [h0] at this
      linarith
    · intro hmono
      rcases lt_or_eq_of_le hinv.buy_le_sell with hlt | heq
      · have hle : r.maxProfit ≤ 0 := by
          rw [hinv.profit_eq]
          have := hmono r.sellTime hinv.sell_lt r.buyTime hlt
          linarith
        have h0 : r.maxProfit = 0 := le_antisymm hle hinv.maxProfit_nonneg
        obtain ⟨hb, hs⟩ := hinv.zero_buy_sell h0
        rw [hb, hs]
      · exact heq

/-- Witness for C9 at the flat series `[5, 5]`. -/
theorem C9_profitable_iff_witness :
    findBestBuySellTimes [5, 5] =
      some { minPrice := 5, minTime := 0, maxProfit := 0, buyTime := 0, sellTime := 0 } ∧
    ((0 < ({ minPrice := 5, minTime := 0, maxProfit := 0, buyTime := 0, sellTime := 0 } :
        FindState).maxProfit ↔
      ({ minPrice := 5, minTime := 0, maxProfit := 0, buyTime := 0, sellTime := 0 } :
        FindState).buyTime <
      ({ minPrice := 5, minTime := 0, maxProfit := 0, buyTime := 0, sellTime := 0 } :
        FindState).sellTime) ∧
    (({ minPrice := 5, minTime := 0, maxProfit := 0, buyTime := 0, sellTime := 0 } :
        FindState).buyTime =
      ({ minPrice := 5, minTime := 0, maxProfit := 0, buyTime := 0, sellTime := 0 } :
        FindState).sellTime ↔
      ∀ j, j < ([5, 5] : List ℚ).length → ∀ b, b < j →
        ([5, 5] : List ℚ).getD j 0 ≤ ([5, 5] : List ℚ).getD b 0)) := by
  have h : findBestBuySellTimes [5, 5] =
      some { minPrice := 5, minTime := 0, maxProfit := 0, buyTime := 0, sellTime := 0 } := by
    norm_num [findBestBuySellTimes, loopRun, loopStep]
  exact ⟨h, C9_profitable_iff [5, 5] _ h⟩

/-- C10: whenever the computed profit is strictly positive,
`prices[buyIndex]` is the minimum of `prices[0..sellIndex]` and `buyIndex`
is the earliest index attaining that minimum. -/
theorem C10_buy_is_earliest_min (ps : List ℚ) (r : FindState)
    (h : findBestBuySellTimes ps = some r) (hpos : 0 < r.maxProfit) :
    r.buyTime ≤ r.sellTime ∧
    (∀ j, j ≤ r.sellTime → ps.getD r.buyTime 0 ≤ ps.getD j 0) ∧
    (∀ j, j < r.buyTime → ps.getD r.buyTime 0 < ps.getD j 0) := by
  have hinv := inv_find ps r h
  exact ⟨hinv.buy_le_sell, hinv.buy_min hpos, hinv.buy_least hpos⟩

/-- Witness for C10 at `prices = [2, 1, 3]`. -/
theorem C10_buy_is_earliest_min_witness :
    findBestBuySellTimes [2, 1, 3] =
      some { minPrice := 1, minTime := 1, maxProfit := 2, buyTime := 1, sellTime := 2 } ∧
    0 < ({ minPrice := 1, minTime := 1, maxProfit := 2, buyTime := 1, sellTime := 2 } :
        FindState).maxProfit ∧
    (({ minPrice := 1, minTime := 1, maxProfit := 2, buyTime := 1, sellTime := 2 } :
        FindState).buyTime ≤
      ({ minPrice := 1, minTime := 1, maxProfit := 2, buyTime := 1, sellTime := 2 } :
        FindState).sellTime ∧
      (∀ j, j ≤ ({ minPrice := 1, minTime := 1, maxProfit := 2, buyTime := 1, sellTime := 2 } :
          FindState).sellTime →
        ([2, 1, 3] : List ℚ).getD
          ({ minPrice := 1, minTime := 1, maxProfit := 2, buyTime := 1, sellTime := 2 } :
            FindState).buyTime 0 ≤ ([2, 1, 3] : List ℚ).getD j 0) ∧
      (∀ j, j < ({ minPrice := 1, minTime := 1, maxProfit := 2, buyTime := 1, sellTime := 2 } :
          FindState).buyTime →
        ([2, 1, 3] : List ℚ).getD
          ({ minPrice := 1, minTime := 1, maxProfit := 2, buyTime := 1, sellTime := 2 } :
            FindState).buyTime 0 < ([2, 1, 3] : List ℚ).getD j 0)) := by
  have h : findBestBuySellTimes [2, 1, 3] =
      some { minPrice := 1, minTime := 1, maxProfit := 2, buyTime := 1, sellTime := 2 } := by
    norm_num [findBestBuySellTimes, loopRun, loopStep]
  exact ⟨h, by norm_num, C10_buy_is_earliest_min [2, 1, 3] _ h (by norm_num)⟩

/-- The memory visible to a call of `findBestBuySellTimes`: the array the
`prices` pointer refers to, together with the scalar locals and the cells
behind the `buyTime`/`sellTime` out-parameters.  Each C statement of the
loop body is translated on this state; none of them assigns to the array. -/
structure MemState where
  prices : List ℚ
  minPrice : ℚ
  minTime : ℕ
  maxProfit : ℚ
  buyTime : ℕ
  sellTime : ℕ
  deriving Repr, DecidableEq

/-- The scalar part of a memory state. -/
def MemState.scalars (m : MemState) : FindState :=
  { minPrice := m.minPrice, minTime := m.minTime, maxProfit := m.maxProfit,
    buyTime := m.buyTime, sellTime := m.sellTime }

/-- The loop body of `findBestBuySellTimes` acting on the full memory
state; `prices[i]` is read from the array held in the state. -/
def memStep (i : ℕ) (m : MemState) : MemState :=
  let p := m.prices.getD i 0
  let m1 := if p < m.minPrice then { m with minPrice := p, minTime := i } else m
  let profit := p - m1.minPrice
  if profit > m1.maxProfit then
    { m1 with maxProfit := profit, buyTime := m1.minTime, sellTime := i }
  else m1

/-- Runs the `k` remaining loop iterations starting at index `i`, on the
memory state. -/
def memLoop : ℕ → ℕ → MemState → MemState
  | 0, _, m => m
  | k + 1, i, m => memLoop k (i + 1) (memStep i m)

/-- The function `findBestBuySellTimes` as a transformer of the full memory state:
starting from the array supplied by the caller, it initialises the locals and the
out-parameter cells and runs the `n - 1` loop iterations from `i = 1`. -/
def findBestBuySellTimesMem : List ℚ → Option MemState
  | [] => none
  | p :: rest =>
    some (memLoop rest.length 1
      { prices := p :: rest, minPrice := p, minTime := 0, maxProfit := 0,
        buyTime := 0, sellTime := 0 })

theorem memStep_prices (i : ℕ) (m : MemState) : (memStep i m).prices = m.prices := by
  simp only [memStep]
  by_cases h1 : m.prices.getD i 0 < m.minPrice
  · rw [if_pos h1]
    split <;> rfl
  · rw [if_neg h1]
    split <;> rfl

theorem memStep_scalars (i : ℕ) (m : MemState) :
    (memStep i m).scalars = loopStep (m.prices.getD i 0) i m.scalars := by
  simp only [memStep, loopStep, MemState.scalars]
  by_cases h1 : m.prices.getD i 0 < m.minPrice
  · rw [if_pos h1, if_pos h1]
    split <;> rfl
  · rw [if_neg h1, if_neg h1]
    split <;> rfl

theorem memLoop_run (k : ℕ) : ∀ (i : ℕ) (m : MemState), i + k ≤ m.prices.length →
    (memLoop k i m).prices = m.prices ∧
    (memLoop k i m).scalars = loopRun (List.take k (m.prices.drop i)) i m.scalars := by
  induction k with
  | zero =>
    intro i m _
    exact ⟨rfl, rfl⟩
  | succ k ih =>
    intro i m hk
    have hi : i < m.prices.length := by omega
    obtain ⟨ihp, ihs⟩ := ih (i + 1) (memStep i m)
      (by rw [memStep_prices]; omega)
    rw [memStep_prices] at ihp ihs
    have hdrop : m.prices.drop i = m.prices.getD i 0 :: m.prices.drop (i + 1) := by
      rw [List.getD_eq_getElem m.prices 0 hi]
      exact List.drop_eq_getElem_cons hi
    constructor
    · show (memLoop k (i + 1) (memStep i m)).prices = m.prices
      exact ihp
    · show (memLoop k (i + 1) (memStep i m)).scalars = _
      rw [hdrop]
      rw [List.take_succ_cons]
      rw [show loopRun (m.prices.getD i 0 :: List.take k (m.prices.drop (i + 1))) i
            m.scalars =
          loopRun (List.take k (m.prices.drop (i + 1))) (i + 1)
            (loopStep (m.prices.getD i 0) i m.scalars) from rfl]
      rw [ihs, memStep_scalars]

/-- C8: the finder is a pure, deterministic function of its input: run on
the full memory state it leaves the price array untouched, and the scalars
it leaves behind are exactly the value of the pure function
`findBestBuySellTimes` on the input sequence — so no state survives the
call and two calls on the same sequence give identical results. -/
theorem C8_pure_no_mutation (ps : List ℚ) (m : MemState)
    (h : findBestBuySellTimesMem ps = some m) :
    m.prices = ps ∧ findBestBuySellTimes ps = some m.scalars := by
  match ps with
  | [] => exact absurd h (by simp [findBestBuySellTimesMem])
  | p :: rest =>
    have hm : m = memLoop rest.length 1
        { prices := p :: rest, minPrice := p, minTime := 0, maxProfit := 0,
          buyTime := 0, sellTime := 0 } := by
      have h' := h
      rw [findBestBuySellTimesMem] at h'
      exact (Option.some_injective _ h').symm
    subst hm
    obtain ⟨hp, hs⟩ := memLoop_run rest.length 1
      { prices := p :: rest, minPrice := p, minTime := 0, maxProfit := 0,
        buyTime := 0, sellTime := 0 } (by simp; omega)
    refine ⟨hp, ?_⟩
    rw [hs]
    have htake : List.take rest.length
        (({ prices := p :: rest, minPrice := p, minTime := 0, maxProfit := 0,
            buyTime := 0, sellTime := 0 } : MemState).prices.drop 1) = rest := by
      simp
    rw [htake]
    rfl

/-- Witness for C8 at `prices = [2, 1]`. -/
theorem C8_pure_no_mutation_witness :
    findBestBuySellTimesMem [2, 1] =
      some { prices := [2, 1], minPrice := 1, minTime := 1, maxProfit := 0,
             buyTime := 0, sellTime := 0 } ∧
    (({ prices := [2, 1], minPrice := 1, minTime := 1, maxProfit := 0,
        buyTime := 0, sellTime := 0 } : MemState).prices = [2, 1] ∧
      findBestBuySellTimes [2, 1] =
        some ({ prices := [2, 1], minPrice := 1, minTime := 1, maxProfit := 0,
                buyTime := 0, sellTime := 0 } : MemState).scalars) := by
  have h : findBestBuySellTimesMem [2, 1] =
      some { prices := [2, 1], minPrice := 1, minTime := 1, maxProfit := 0,
             buyTime := 0, sellTime := 0 } := by
    norm_num [findBestBuySellTimesMem, memLoop, memStep]
  exact ⟨h, C8_pure_no_mutation [2, 1] _ h⟩

end ValueVault
